import Mathlib

/-!
# Verification of the queue-manager task queue engine

Shallow embedding of the queue engine of the `queue-manager` repository:
the task data model (`src/types/index.ts`), the engine operations of
`src/lib/QueueManager.ts`, the shared repository logic of
`src/repositories/base.repositury.ts`, and the backend-specific pieces of
`src/repositories/file.repository.ts`, `src/repositories/postgres.repository.ts`
and `src/repositories/redis.repository.ts` that the claims under scrutiny
refer to.

Conventions:
* timestamps (`createdAt`, `updatedAt`, `now`) are epoch milliseconds as `Int`
  (JS `Date.getTime()`);
* `priority` is an `Int` (the spec allows signed integers);
* task ids are `Nat` (the engine assigns them from an increasing `nextId`);
* payloads are opaque and modelled as `String`;
* JS `Array.prototype.sort` is required to be stable by ES2019; it is modelled
  by a stable insertion sort (`stableSortTasks`), which produces the unique
  stable sorted permutation for the consistent comparator used by the engine.
-/

namespace QM

/-- Task status, `src/types/index.ts` (`TaskBase.status`). -/
inductive Status where
  | pending
  | processing
  | done
  | failed
  | deleted
deriving DecidableEq, Repr

/-- The task record, `src/types/index.ts` (`TaskBase` plus `handler`/`payload`).
`maxRetries` and `maxProcessingTime` are declared as required numbers in the
TypeScript type, so the defensive `?? MAX_RETRIES` / `?? MAX_PROCESSING_TIME`
fallbacks in the repository code never apply to a well-typed task; the
effective per-task limits are the task's own fields. -/
structure Task where
  id : Nat
  handler : String
  payload : String
  status : Status
  log : String
  createdAt : Int
  updatedAt : Int
  maxRetries : Nat
  maxProcessingTime : Nat
  retryCount : Nat
  priority : Int
deriving DecidableEq, Repr

/-- Lifecycle events of the engine (`QueueManagerEvents`, `src/types/index.ts`).
`taskFailed` carries the error's message. -/
inductive Event where
  | taskAdded (t : Task)
  | taskStarted (t : Task)
  | taskCompleted (t : Task)
  | taskFailed (t : Task) (errMsg : String)
  | taskRetried (t : Task)
  | taskRemoved (t : Task)
  | taskStuck (t : Task)
deriving DecidableEq, Repr

/-- The dequeue comparator, `QueueManager.sortTasksByPriority`
(`src/lib/QueueManager.ts` line 292) and `BaseQueueRepository.sortTasksToDequeue`
(`src/repositories/base.repositury.ts` line 38):
`(b.priority ?? 0) - (a.priority ?? 0) || createdAt(a) - createdAt(b)`.
JS `x || y` yields `y` exactly when the number `x` is `0`. -/
def sortTasksByPriority (a b : Task) : Int :=
  if b.priority - a.priority ≠ 0 then b.priority - a.priority
  else a.createdAt - b.createdAt

theorem cmp_le_zero_iff (a b : Task) :
    sortTasksByPriority a b ≤ 0 ↔ b.priority < a.priority ∨
      (b.priority = a.priority ∧ a.createdAt ≤ b.createdAt) := by
  unfold sortTasksByPriority
  split <;> omega

theorem cmp_eq_zero_iff (a b : Task) :
    sortTasksByPriority a b = 0 ↔ b.priority = a.priority ∧ a.createdAt = b.createdAt := by
  unfold sortTasksByPriority
  split <;> omega

theorem cmp_lt_zero_iff (a b : Task) :
    sortTasksByPriority a b < 0 ↔ b.priority < a.priority ∨
      (b.priority = a.priority ∧ a.createdAt < b.createdAt) := by
  unfold sortTasksByPriority
  split <;> omega

theorem cmp_antisymm (a b : Task) :
    sortTasksByPriority a b = - sortTasksByPriority b a := by
  unfold sortTasksByPriority
  split <;> split <;> omega

theorem cmp_le_trans {a b c : Task} (h₁ : sortTasksByPriority a b ≤ 0)
    (h₂ : sortTasksByPriority b c ≤ 0) : sortTasksByPriority a c ≤ 0 := by
  rw [cmp_le_zero_iff] at h₁ h₂ ⊢
  omega

/-- Stable insertion into a sorted list: `x` is placed before the first `y`
that the comparator does not order strictly before `x`.  Folding it over a
list yields the unique stable sort for a consistent comparator, i.e. exactly
what ES2019 `Array.prototype.sort` produces for
`sortTasksByPriority`. -/
def insertSorted (x : Task) : List Task → List Task
  | [] => [x]
  | y :: ys => if sortTasksByPriority x y ≤ 0 then x :: y :: ys else y :: insertSorted x ys

/-- Model of `[...tasks].sort(sortTasksByPriority)` (stable by ES2019). -/
def stableSortTasks (l : List Task) : List Task := l.foldr insertSorted []

theorem insertSorted_perm (x : Task) (l : List Task) :
    List.Perm (insertSorted x l) (x :: l) := by
  induction l with
  | nil => rfl
  | cons y ys ih =>
    rw [insertSorted]
    split
    · rfl
    · exact (List.Perm.cons y ih).trans (List.Perm.swap x y ys)

theorem mem_insertSorted {a x : Task} {l : List Task} :
    a ∈ insertSorted x l ↔ a = x ∨ a ∈ l := by
  rw [(insertSorted_perm x l).mem_iff, List.mem_cons]

theorem stableSortTasks_perm (l : List Task) : List.Perm (stableSortTasks l) l := by
  induction l with
  | nil => rfl
  | cons x xs ih => exact (insertSorted_perm x (stableSortTasks xs)).trans (List.Perm.cons x ih)

theorem mem_stableSortTasks {a : Task} {l : List Task} :
    a ∈ stableSortTasks l ↔ a ∈ l :=
  (stableSortTasks_perm l).mem_iff

/-- The total dequeue order obtained from the comparator, refined on ties by
the position order of the input (which, for the engine's task lists, is the
ascending id order): `a` is sorted no later than `b`, and strictly earlier ids
win exact ties of `(priority, createdAt)`. -/
def dequeueRel (a b : Task) : Prop :=
  sortTasksByPriority a b ≤ 0 ∧ (sortTasksByPriority a b = 0 → a.id < b.id)

theorem pairwise_insertSorted {x : Task} {l : List Task}
    (hl : l.Pairwise dequeueRel) (hx : ∀ y ∈ l, x.id < y.id) :
    (insertSorted x l).Pairwise dequeueRel := by
  induction l with
  | nil => simp [insertSorted, dequeueRel]
  | cons y ys ih =>
    rw [insertSorted]
    rcases List.pairwise_cons.mp hl with ⟨hy, hys⟩
    split
    · rename_i h
      refine List.pairwise_cons.mpr ⟨?_, hl⟩
      intro z hz
      rcases List.mem_cons.mp hz with rfl | hz
      · exact ⟨h, fun _ => hx z (List.mem_cons_self _ _)⟩
      · exact ⟨cmp_le_trans h (hy z hz).1, fun _ => hx z (List.mem_cons_of_mem _ hz)⟩
    · rename_i h
      refine List.pairwise_cons.mpr ⟨?_, ih hys (fun z hz => hx z (List.mem_cons_of_mem _ hz))⟩
      intro z hz
      rcases mem_insertSorted.mp hz with rfl | hz
      · constructor
        · rw [cmp_antisymm]; omega
        · rw [cmp_antisymm]; omega
      · exact hy z hz

theorem pairwise_stableSortTasks {l : List Task}
    (hl : l.Pairwise (fun a b => a.id < b.id)) :
    (stableSortTasks l).Pairwise dequeueRel := by
  induction l with
  | nil => exact List.Pairwise.nil
  | cons x xs ih =>
    rcases List.pairwise_cons.mp hl with ⟨hx, hxs⟩
    exact pairwise_insertSorted (ih hxs)
      (fun y hy => hx y (mem_stableSortTasks.mp hy))

theorem find?_decomp {p : Task → Bool} {l : List Task} {t : Task}
    (h : l.find? p = some t) :
    ∃ l₁ l₂, l = l₁ ++ t :: l₂ ∧ ∀ x ∈ l₁, ¬ (p x = true) := by
  induction l with
  | nil => simp at h
  | cons y ys ih =>
    by_cases hy : p y = true
    · rw [List.find?_cons_of_pos _ hy] at h
      injection h with h
      subst h
      exact ⟨[], ys, rfl, by simp⟩
    · rw [List.find?_cons_of_neg _ (by simpa using hy)] at h
      rcases ih h with ⟨l₁, l₂, rfl, hl₁⟩
      refine ⟨y :: l₁, l₂, rfl, ?_⟩
      intro x hx
      rcases List.mem_cons.mp hx with rfl | hx
      · exact hy
      · exact hl₁ x hx

/-- `[...this.tasks].sort(this.sortTasksByPriority).find(t => t.status === 'pending')`
(`QueueManager.singleDequeue`, QueueManager.ts 306, and the identical selection
in `BaseQueueRepository.dequeue`, base.repositury.ts 48). -/
def findPending (tasks : List Task) : Option Task :=
  (stableSortTasks tasks).find? (fun t => t.status == Status.pending)

/-- `taskToProcess.status = 'processing'` observed through the task list: the
source mutates the found object, which is shared between the sorted copy and
the stored array; with the pairwise-distinct ids the engine produces, this is
the update of the tasks carrying that id. -/
def setProcessing (id : Nat) (tasks : List Task) : List Task :=
  tasks.map fun u => if u.id = id then { u with status := Status.processing } else u

/-- `QueueManager.singleDequeue` (QueueManager.ts 301-316) past the lock gate:
sort a copy, take the first `pending` task, flip its status to `processing`,
save, and return it; `undefined` when there is no pending task.  Note that it
does not touch `updatedAt`. -/
def singleDequeue (tasks : List Task) : Option Task × List Task :=
  match findPending tasks with
  | some t => (some { t with status := Status.processing }, setProcessing t.id tasks)
  | none => (none, tasks)

/-- `QueueManager.singleDequeue` including the in-process `dequeueLock` check at
entry (QueueManager.ts 302): a call that observes the lock held returns
`undefined` without reading or writing the queue. -/
def singleDequeueLocked (dequeueLock : Bool) (tasks : List Task) : Option Task × List Task :=
  if dequeueLock then (none, tasks) else singleDequeue tasks

/-- The `Partial<Task>` objects passed to `updateTask` at the use sites the
claims cover (`status`, `retryCount`, `log`). -/
structure TaskUpdate where
  status : Option Status := none
  retryCount : Option Nat := none
  log : Option String := none

/-- `Object.assign(task, obj)` for a `TaskUpdate`. -/
def applyUpdate (obj : TaskUpdate) (t : Task) : Task :=
  { t with
    status := obj.status.getD t.status
    retryCount := obj.retryCount.getD t.retryCount
    log := obj.log.getD t.log }

/-- In-place mutation of the first task with the given id (the source pattern
`tasks.find(t => t.id === id)` followed by assignments to the found object). -/
def updateFirst (id : Nat) (f : Task → Task) : List Task → List Task
  | [] => []
  | t :: ts => if t.id = id then f t :: ts else t :: updateFirst id f ts

/-- `BaseQueueRepository.updateTask` (base.repositury.ts 26-36): find the task,
`Object.assign` the partial update, set `updatedAt` to now, save; returns the
updated task, or `undefined` when the id is absent. -/
def baseUpdateTask (now : Int) (id : Nat) (obj : TaskUpdate) (tasks : List Task) :
    Option Task × List Task :=
  match tasks.find? (fun t => t.id == id) with
  | some t =>
      (some { applyUpdate obj t with updatedAt := now },
       updateFirst id (fun u => { applyUpdate obj u with updatedAt := now }) tasks)
  | none => (none, tasks)

/-- `BaseQueueRepository.checkAndHandleStuckTasks` (base.repositury.ts 62-85).
The `for (const task of tasks)` loop iterates over the array while
`this.updateTask` mutates the visited element in place; element access is
modelled by id lookup, which coincides with object identity whenever ids are
pairwise distinct (as in every state the engine produces).  The `logger`
calls are not modelled; the retry-exhaustion message
`Task ... failed after ... retries` is the error carried by the `taskFailed`
event.  Note that the failure branch updates only `status` (and, through
`updateTask`, `updatedAt`): the task's `log` field is left unchanged. -/
def checkStuckGo (now : Int) : List Nat → List Task → List Task × List Event
  | [], cur => (cur, [])
  | i :: rest, cur =>
    match cur.find? (fun u => u.id == i) with
    | none => checkStuckGo now rest cur
    | some u =>
      if u.status ≠ Status.processing then checkStuckGo now rest cur
      else if now - u.updatedAt > (u.maxProcessingTime : Int) then
        -- `task.maxProcessingTime ?? this.MAX_PROCESSING_TIME`: the field is
        -- required by the Task type, so the effective limit is the field.
        if u.retryCount < u.maxRetries then
          let cur' := (baseUpdateTask now i
            { retryCount := some (u.retryCount + 1), status := some Status.pending } cur).2
          let res := checkStuckGo now rest cur'
          let u' : Task :=
            { u with
              retryCount := u.retryCount + 1
              status := Status.pending
              updatedAt := now }
          (res.1, Event.taskStuck u :: Event.taskRetried u' :: res.2)
        else
          let m := u.maxRetries
          let cur' := (baseUpdateTask now i { status := some Status.failed } cur).2
          let res := checkStuckGo now rest cur'
          (res.1, Event.taskStuck u ::
            Event.taskFailed u (s!"Task {i} failed after {m} retries") :: res.2)
      else checkStuckGo now rest cur

/-- Entry point of the stuck-task scan over a task list. -/
def checkAndHandleStuckTasks (now : Int) (tasks : List Task) : List Task × List Event :=
  checkStuckGo now (tasks.map (fun t => t.id)) tasks

/-- `BaseQueueRepository.dequeue` (base.repositury.ts 43-60), the dequeue of the
memory and file backends: the same selection and flip as `singleDequeue`; when
no pending task exists it runs the stuck check and returns `null`.  The flip
does not touch `updatedAt`. -/
def baseDequeue (now : Int) (tasks : List Task) : Option Task × List Task × List Event :=
  match findPending tasks with
  | some t => (some { t with status := Status.processing }, setProcessing t.id tasks, [])
  | none =>
    let res := checkAndHandleStuckTasks now tasks
    (none, res.1, res.2)

/-- `PostgresQueueRepository.updateTask` (postgres.repository.ts 79-99): the SQL
`UPDATE` sets exactly the supplied fields (in particular it does not touch
`updated_at`); the `WHERE id = $n` clause updates every row with that id (the
primary key makes it at most one). -/
def pgUpdateTask (id : Nat) (obj : TaskUpdate) (tasks : List Task) : List Task :=
  tasks.map fun u => if u.id = id then applyUpdate obj u else u

/-- The inherited stuck scan as it runs for the Postgres backend: guards read
the selected snapshot rows (one `SELECT` result, disconnected from the table),
updates go through `PostgresQueueRepository.updateTask`, and the event payloads
are the unmutated snapshot objects. -/
def pgCheckStuck (now : Int) : List Task → List Task → List Task × List Event
  | [], table => (table, [])
  | u :: rest, table =>
    if u.status ≠ Status.processing then pgCheckStuck now rest table
    else if now - u.updatedAt > (u.maxProcessingTime : Int) then
      if u.retryCount < u.maxRetries then
        let table' := pgUpdateTask u.id
          { retryCount := some (u.retryCount + 1), status := some Status.pending } table
        let res := pgCheckStuck now rest table'
        (res.1, Event.taskStuck u :: Event.taskRetried u :: res.2)
      else
        let m := u.maxRetries
        let i := u.id
        let table' := pgUpdateTask u.id { status := some Status.failed } table
        let res := pgCheckStuck now rest table'
        (res.1, Event.taskStuck u ::
          Event.taskFailed u (s!"Task {i} failed after {m} retries") :: res.2)
    else pgCheckStuck now rest table

/-- `PostgresQueueRepository.dequeue` (postgres.repository.ts 101-146):
`SELECT … WHERE status='pending' ORDER BY priority DESC, created_at ASC LIMIT 1
FOR UPDATE SKIP LOCKED`, then `UPDATE … SET status='processing',
updated_at=NOW() WHERE id=$1`, COMMIT.  SQL leaves exact
`(priority, created_at)` ties unordered; the model resolves them by row order.
The function returns the row as selected — the pre-update record, still
`pending` with the old `updated_at`; only the stored row is flipped.  On an
empty result it commits and runs the stuck check over the `processing` rows. -/
def pgDequeue (now : Int) (tasks : List Task) : Option Task × List Task × List Event :=
  match findPending tasks with
  | some t =>
    (some t,
     tasks.map (fun u => if u.id = t.id
       then { u with status := Status.processing, updatedAt := now } else u),
     [])
  | none =>
    let res := pgCheckStuck now (tasks.filter (fun t => t.status == Status.processing)) tasks
    (none, res.1, res.2)

/-- The field assignments of `QueueManager.updateTaskStatus`
(QueueManager.ts 365-377): set `status`, `updatedAt := now`, and `log` when the
argument is truthy — JS `if (log)`, so an empty string leaves the log alone. -/
def statusUpdateFn (now : Int) (status : Status) (log : Option String) (u : Task) : Task :=
  { u with
    status := status
    updatedAt := now
    log := match log with
           | some s => if s = "" then u.log else s
           | none => u.log }

/-- `QueueManager.updateTaskStatus` (QueueManager.ts 365-377). -/
def updateTaskStatus (now : Int) (id : Nat) (status : Status) (log : Option String)
    (tasks : List Task) : Option Task × List Task :=
  match tasks.find? (fun t => t.id == id) with
  | some t => (some (statusUpdateFn now status log t),
               updateFirst id (statusUpdateFn now status log) tasks)
  | none => (none, tasks)

/-- The field assignments of `QueueManager.updateTaskRetryCount`
(QueueManager.ts 385-397). -/
def retryUpdateFn (now : Int) (u : Task) : Task :=
  { u with retryCount := u.retryCount + 1, updatedAt := now, status := Status.pending }

/-- `QueueManager.updateTaskRetryCount` (QueueManager.ts 385-397): increment
`retryCount`, stamp `updatedAt`, reset status to `pending`, save, emit
`taskRetried` with the updated task. -/
def updateTaskRetryCount (now : Int) (id : Nat) (tasks : List Task) :
    Option Task × List Task × List Event :=
  match tasks.find? (fun t => t.id == id) with
  | some t => (some (retryUpdateFn now t), updateFirst id (retryUpdateFn now) tasks,
               [Event.taskRetried (retryUpdateFn now t)])
  | none => (none, tasks, [])

/-- Per-handler policy overrides (`HandlerOptions`, handlerRegistry.ts). -/
structure HandlerOptions where
  maxRetries : Option Nat := none
  maxProcessingTime : Option Nat := none
deriving DecidableEq, Repr

/-- The `options` argument of `addTaskToQueue`. -/
structure AddTaskOptions where
  maxRetries : Option Nat := none
  maxProcessingTime : Option Nat := none
  priority : Option Int := none
deriving DecidableEq, Repr

/-- Engine-level defaults `this.MAX_RETRIES` / `this.MAX_PROCESSING_TIME`. -/
structure EngineConfig where
  MAX_RETRIES : Nat
  MAX_PROCESSING_TIME : Nat
deriving DecidableEq, Repr

/-- `QueueManager.addTaskToQueue` (QueueManager.ts 235-263): build the task —
`id := nextId++`, status `pending`, empty log, both timestamps now,
`maxRetries`/`maxProcessingTime` resolved by
`options?.x ?? handlerEntry?.options?.x ?? this.X`, `retryCount 0`,
`priority := options?.priority ?? 0` — push it, save, emit `taskAdded`, return
it.  `handlerEntry` is `this.registry.get(handler)` and may be absent. -/
def addTaskToQueue (cfg : EngineConfig) (handlerEntry : Option HandlerOptions)
    (nextId : Nat) (handler payload : String) (options : Option AddTaskOptions)
    (now : Int) (tasks : List Task) : Task × List Task × List Event :=
  let task : Task :=
    { id := nextId
      payload := payload
      handler := handler
      status := Status.pending
      log := ""
      createdAt := now
      updatedAt := now
      maxRetries := ((options.bind AddTaskOptions.maxRetries) <|>
        (handlerEntry.bind HandlerOptions.maxRetries)).getD cfg.MAX_RETRIES
      maxProcessingTime := ((options.bind AddTaskOptions.maxProcessingTime) <|>
        (handlerEntry.bind HandlerOptions.maxProcessingTime)).getD cfg.MAX_PROCESSING_TIME
      retryCount := 0
      priority := (options.bind AddTaskOptions.priority).getD 0 }
  (task, tasks ++ [task], [Event.taskAdded task])

/-- `QueueManager.removeTask` (QueueManager.ts 270-284): find the task by id; if
present and not yet deleted, flip its status to `deleted`, save, emit
`taskRemoved`, return it; if present but already deleted, throw
`Task with ID ... is already deleted`; if absent, throw
`Task with ID ... not found`. -/
def removeTask (id : Nat) (tasks : List Task) :
    Except String (Task × List Task × List Event) :=
  match tasks.find? (fun t => t.id == id) with
  | some task =>
    if task.status ≠ Status.deleted then
      Except.ok ({ task with status := Status.deleted },
        updateFirst id (fun u => { u with status := Status.deleted }) tasks,
        [Event.taskRemoved { task with status := Status.deleted }])
    else Except.error (s!"Task with ID {id} is already deleted")
  | none => Except.error (s!"Task with ID {id} not found")

/-- `FileQueueRepository.deleteTask` (file.repository.ts 13-26): find the index
of the task; hard delete splices the row out, soft delete mutates its status to
`deleted`; returns the (soft: mutated) row, or `undefined` when absent.  No
event is emitted at this layer. -/
def fileDeleteTask (id : Nat) (hardDelete : Bool) (tasks : List Task) :
    Option Task × List Task :=
  match tasks.find? (fun t => t.id == id) with
  | none => (none, tasks)
  | some t =>
    if hardDelete then (some t, tasks.eraseP (fun u => u.id == id))
    else (some { t with status := Status.deleted },
          updateFirst id (fun u => { u with status := Status.deleted }) tasks)

/-- The typed errors of `src/util/errors.ts` raised by
`FileQueueRepository.loadTasks`. -/
inductive QMError where
  | fileRepositoryLoad (filePath : String) (path : String)
  | fileRepositoryRead (filePath : String) (details : String)
deriving DecidableEq, Repr

/-- Split a character list at every occurrence of `sep` (the path handling of
`extname` is on code points; the separators involved are ASCII). -/
def splitOnChar (sep : Char) : List Char → List (List Char)
  | [] => [[]]
  | c :: cs =>
    let r := splitOnChar sep cs
    if c = sep then [] :: r
    else match r with
      | [] => [[c]]
      | g :: gs => (c :: g) :: gs

/-- Node `path.extname`: the suffix of the last path component starting at its
last dot, with a leading-dot-only component (such as `.gitignore`) having no
extension. -/
def extname (p : String) : String :=
  let base := (splitOnChar '/' p.data).getLastD []
  match splitOnChar '.' base with
  | [] => ""
  | [_] => ""
  | first :: rest =>
    if first = [] ∧ rest.length = 1 then ""
    else String.mk ('.' :: rest.getLastD [])

/-- `FileQueueRepository.loadTasks` (file.repository.ts 29-47).  The backing
file is `none` when absent (`ENOENT`); JSON (de)serialisation is abstracted, a
present file holds its decoded task list (`JSON.parse(data || '[]')`).  The
non-`.json` guard throws `FileRepositoryTypeMismatchError` inside the `try`;
the `catch` sees a code other than `ENOENT` and rethrows it wrapped as
`FileRepositoryReadError(filePath, message)`.  A missing file is *not*
tolerated: the `ENOENT` branch throws
`FileRepositoryLoadError(filePath, error.path)` (message: the path
`does not exist. Please create the directory first`). -/
def fileLoadTasks (filePath : String) (file : Option (List Task))
    (status : Option Status) : Except QMError (List Task) :=
  if extname filePath ≠ ".json" then
    Except.error (QMError.fileRepositoryRead filePath "File path must end with .json format.")
  else
    match file with
    | none => Except.error (QMError.fileRepositoryLoad filePath filePath)
    | some ts =>
      match status with
      | some st => Except.ok (ts.filter (fun t => t.status == st))
      | none => Except.ok ts

/-- `RedisQueueRepository.getScore` (redis.repository.ts 200-205):
`task.priority * 1000000 - new Date(task.createdAt).getTime()`, the score of
the `{prefix}:queue:pending` sorted set from which `dequeue` takes
`zrevrange(…, 0, 0)` — the member with the highest score. -/
def getScore (task : Task) : Int :=
  task.priority * 1000000 - task.createdAt

/-- The Redis key-value half of the backend, an association list from keys to
task bodies (`JSON.parse`/`JSON.stringify` abstracted to the task record).
`redisGet` is `redis.get key`. -/
def redisGet (store : List (String × Task)) (key : String) : Option Task :=
  (store.find? (fun kv => kv.1 == key)).map (fun kv => kv.2)

/-- `redis.set key value`: the previous binding of the key is replaced. -/
def redisSet (key : String) (t : Task) (store : List (String × Task)) :
    List (String × Task) :=
  (key, t) :: store.filter (fun kv => ¬ kv.1 == key)

/-- `RedisQueueRepository.dequeue` (redis.repository.ts 262-302), from the
point `zrevrange({storageName}:queue:pending, 0, 0)` returned the member
`taskId` (its empty-reply path runs the inherited stuck scan over the
`processing` set and returns null; no claim depends on it, so it is outside
this definition).  The task body is read with
`GET {storageName}:queue:task:{taskId}` — a key that differs from the
`{storageName}:task:{id}` key under which `enqueue` and `updateTask` store
bodies — and a missing body or a failed `acquireLock` returns null.
Otherwise the object's `status` and `updatedAt` are mutated and written back
under `{storageName}:task:{taskId}` in the MULTI that also moves the id from
the pending to the processing set (the id sets and the optional lock key are
outside this key-value model). -/
def redisDequeue (storageName : String) (now : Int) (taskId : Nat)
    (lockAcquired : Bool) (store : List (String × Task)) :
    Option Task × List (String × Task) :=
  match redisGet store (storageName ++ ":queue:task:" ++ toString taskId) with
  | none => (none, store)
  | some taskToProcess =>
    if ¬ lockAcquired then (none, store)
    else
      let t' := { taskToProcess with status := Status.processing, updatedAt := now }
      (some t', redisSet (storageName ++ ":task:" ++ toString taskId) t' store)

theorem redisGet_set (key : String) (t : Task) (store : List (String × Task)) :
    redisGet (redisSet key t store) key = some t := by
  unfold redisGet redisSet
  rw [List.find?_cons_of_pos _ (by simp)]
  rfl

/-- Outcome of `await handler.fn(task.payload)` for a registered handler. -/
inductive HandlerOutcome where
  | success
  | failure (msg : String)
deriving DecidableEq, Repr

/-- The body of the worker loop once `dequeue` returned a task
(`QueueWorker.queueWorker`, queueWorker.ts 41-59): emit `taskStarted`, look the
handler up; a missing handler throws `Handler not found`, a handler error
propagates its message; the `catch` records the failure through
`updateTaskStatus(id, 'failed', message || 'Unknown error')` and then either
stops the loop re-raising the error (`crashOnWorkerError`) or emits
`taskFailed` and keeps polling.  On success it records `done` and emits
`taskCompleted`.  Returns the task list, the emitted events, and whether the
loop is still active. -/
def workerProcess (handlerEntry : Option HandlerOutcome) (crashOnWorkerError : Bool)
    (now : Int) (t : Task) (tasks : List Task) : List Task × List Event × Bool :=
  match handlerEntry with
  | none =>
    let msg := "Handler not found"
    let tasks' := (updateTaskStatus now t.id Status.failed (some msg) tasks).2
    if crashOnWorkerError then (tasks', [Event.taskStarted t], false)
    else (tasks', [Event.taskStarted t, Event.taskFailed t msg], true)
  | some HandlerOutcome.success =>
    ((updateTaskStatus now t.id Status.done none tasks).2,
     [Event.taskStarted t, Event.taskCompleted t], true)
  | some (HandlerOutcome.failure msg) =>
    let logMsg := if msg = "" then "Unknown error" else msg
    let tasks' := (updateTaskStatus now t.id Status.failed (some logMsg) tasks).2
    if crashOnWorkerError then (tasks', [Event.taskStarted t], false)
    else (tasks', [Event.taskStarted t, Event.taskFailed t logMsg], true)

/-- Two processes sharing one file backend, each running
`BaseQueueRepository.dequeue`, under the schedule ⟨P reads, Q reads, P selects
and saves, Q selects and saves⟩.  `await this.loadTasks()` and
`await this.saveTasks(tasks)` are suspension points, and each process owns its
own in-memory `dequeueLock`, so nothing prevents this interleaving; each save
overwrites the whole file with the saver's snapshot.  Returns P's result, Q's
result and the final file contents. -/
def twoProcessFileDequeue (now : Int) (s : List Task) :
    Option Task × Option Task × List Task :=
  let snapP := s
  let snapQ := s
  let p := baseDequeue now snapP
  let q := baseDequeue now snapQ
  (p.1, q.1, q.2.1)

/-- part_002 `QueueWorker.processTaskWithTimeout` (lines 31-57) retry
accounting on a processing-timeout: `if (task.retryCount <= task.maxRetries)`
increment `retryCount` (and emit `taskRetried`, then re-run the handler);
otherwise the error propagates and the task is failed by `handleTaskError`.
The increment mutates the in-flight task object, here applied to the stored
task with that id. -/
def workerTimeoutRetry (id : Nat) (tasks : List Task) : List Task :=
  updateFirst id
    (fun t => if t.retryCount ≤ t.maxRetries then { t with retryCount := t.retryCount + 1 } else t)
    tasks

/-- One engine operation on the stored task list, as the claims' sources
implement them: enqueue (`addTaskToQueue`), dequeue (`singleDequeue`), the
stuck scan (`checkAndHandleStuckTasks`), the worker's timeout-retry increment
(part_002 `processTaskWithTimeout`), and the worker's terminal status updates
(`updateTaskStatus` for `done`/`failed`, and any admin status update). -/
inductive EngineStep : List Task → List Task → Prop
  | add (cfg : EngineConfig) (he : Option HandlerOptions) (nextId : Nat)
      (handler payload : String) (options : Option AddTaskOptions) (now : Int)
      (s : List Task) :
      EngineStep s (addTaskToQueue cfg he nextId handler payload options now s).2.1
  | dequeue (s : List Task) : EngineStep s (singleDequeue s).2
  | stuck (now : Int) (s : List Task) : EngineStep s (checkAndHandleStuckTasks now s).1
  | timeoutRetry (id : Nat) (s : List Task) : EngineStep s (workerTimeoutRetry id s)
  | statusUpdate (now : Int) (id : Nat) (st : Status) (log : Option String)
      (s : List Task) : EngineStep s (updateTaskStatus now id st log s).2

/-- States reachable from the empty queue through engine operations. -/
def EngineReachable (s : List Task) : Prop := Relation.ReflTransGen EngineStep [] s

/-- `a` strictly precedes `b` in the order the spec prescribes for dequeue:
priority descending, then `createdAt` ascending, then id ascending. -/
def dequeueBefore (a b : Task) : Prop :=
  b.priority < a.priority ∨ (a.priority = b.priority ∧
    (a.createdAt < b.createdAt ∨ (a.createdAt = b.createdAt ∧ a.id < b.id)))

instance : DecidableRel dequeueBefore := fun a b => by
  unfold dequeueBefore
  infer_instance

theorem findPending_mem_pending {tasks : List Task} {t : Task}
    (h : findPending tasks = some t) : t ∈ tasks ∧ t.status = Status.pending := by
  unfold findPending at h
  refine ⟨mem_stableSortTasks.mp (List.mem_of_find?_eq_some h), ?_⟩
  have := List.find?_some h
  simpa using this

theorem findPending_maximal {tasks : List Task} {t : Task}
    (hids : tasks.Pairwise (fun a b => a.id < b.id))
    (h : findPending tasks = some t) :
    ∀ u ∈ tasks, u.status = Status.pending → u.id ≠ t.id → dequeueBefore t u := by
  intro u hu hupend hune
  have hpw : (stableSortTasks tasks).Pairwise dequeueRel := pairwise_stableSortTasks hids
  unfold findPending at h
  rcases find?_decomp h with ⟨l₁, l₂, hsplit, hl₁⟩
  have humem : u ∈ stableSortTasks tasks := mem_stableSortTasks.mpr hu
  rw [hsplit] at humem hpw
  rcases List.mem_append.mp humem with hu₁ | hu₂
  · exact absurd (by simpa using hupend) (by simpa using hl₁ u hu₁)
  · rcases List.mem_cons.mp hu₂ with rfl | hu₂
    · exact absurd rfl hune
    · have hrel : dequeueRel t u :=
        (List.pairwise_cons.mp (List.pairwise_append.mp hpw).2.1).1 u hu₂
      rcases hrel with ⟨hle, htie⟩
      rcases lt_or_eq_of_le hle with hlt | heq
      · rw [cmp_lt_zero_iff] at hlt
        unfold dequeueBefore
        omega
      · have := htie heq
        rw [cmp_eq_zero_iff] at heq
        unfold dequeueBefore
        omega

/-- C1: if the queue holds a pending task, `singleDequeue` returns a pending
task maximal under (priority desc, createdAt asc, id asc), flipped to
`processing`, and the stored list changes exactly by that flip; with no
pending task it returns none and leaves the list unchanged.  The id-ascending
tiebreak is the stability of the sort over the engine's id-ordered task
lists, captured by the `Pairwise` hypothesis. -/
theorem singleDequeue_selects_max_pending (tasks : List Task)
    (hids : tasks.Pairwise (fun a b => a.id < b.id)) :
    ((∃ t ∈ tasks, t.status = Status.pending) →
      ∃ t ∈ tasks, t.status = Status.pending ∧
        (singleDequeue tasks).1 = some { t with status := Status.processing } ∧
        (singleDequeue tasks).2 =
          tasks.map (fun u => if u.id = t.id
            then { u with status := Status.processing } else u) ∧
        ∀ u ∈ tasks, u.status = Status.pending → u.id ≠ t.id → dequeueBefore t u)
    ∧ ((∀ t ∈ tasks, t.status ≠ Status.pending) →
        singleDequeue tasks = (none, tasks)) := by
  constructor
  · rintro ⟨p, hp, hppend⟩
    cases h : findPending tasks with
    | none =>
      exfalso
      unfold findPending at h
      have := List.find?_eq_none.mp h p (mem_stableSortTasks.mpr hp)
      simp [hppend] at this
    | some t =>
      rcases findPending_mem_pending h with ⟨htmem, htpend⟩
      refine ⟨t, htmem, htpend, ?_, ?_, findPending_maximal hids h⟩
      · unfold singleDequeue
        rw [h]
      · unfold singleDequeue
        rw [h]
        rfl
  · intro hnone
    have h : findPending tasks = none := by
      unfold findPending
      refine List.find?_eq_none.mpr ?_
      intro x hx
      have := hnone x (mem_stableSortTasks.mp hx)
      simpa using this
    unfold singleDequeue
    rw [h]

/-- Helper to build concrete tasks for witnesses and counterexamples. -/
def mkTask (id : Nat) (st : Status) (pr ca ua : Int) (mr mp rc : Nat) : Task :=
  { id := id
    handler := "h"
    payload := "p"
    status := st
    log := ""
    createdAt := ca
    updatedAt := ua
    maxRetries := mr
    maxProcessingTime := mp
    retryCount := rc
    priority := pr }

/-- C1 witness: enqueue order A(priority 0), B(priority 5), C(priority 5);
dequeue must pick B — pending, maximal, and exactly B is flipped. -/
theorem singleDequeue_selects_max_pending_witness :
    ∃ t ∈ [mkTask 1 Status.pending 0 10 10 3 100 0,
           mkTask 2 Status.pending 5 20 20 3 100 0,
           mkTask 3 Status.pending 5 30 30 3 100 0],
      t.status = Status.pending ∧
      (singleDequeue [mkTask 1 Status.pending 0 10 10 3 100 0,
                      mkTask 2 Status.pending 5 20 20 3 100 0,
                      mkTask 3 Status.pending 5 30 30 3 100 0]).1 =
        some { t with status := Status.processing } ∧
      (singleDequeue [mkTask 1 Status.pending 0 10 10 3 100 0,
                      mkTask 2 Status.pending 5 20 20 3 100 0,
                      mkTask 3 Status.pending 5 30 30 3 100 0]).2 =
        [mkTask 1 Status.pending 0 10 10 3 100 0,
         mkTask 2 Status.pending 5 20 20 3 100 0,
         mkTask 3 Status.pending 5 30 30 3 100 0].map (fun u => if u.id = t.id
          then { u with status := Status.processing } else u) ∧
      ∀ u ∈ [mkTask 1 Status.pending 0 10 10 3 100 0,
             mkTask 2 Status.pending 5 20 20 3 100 0,
             mkTask 3 Status.pending 5 30 30 3 100 0],
        u.status = Status.pending → u.id ≠ t.id → dequeueBefore t u :=
  (singleDequeue_selects_max_pending _ (by decide)).1
    ⟨mkTask 1 Status.pending 0 10 10 3 100 0, by decide, by decide⟩

theorem singleDequeue_some_inv {tasks : List Task} {t : Task}
    (h : (singleDequeue tasks).1 = some t) :
    ∃ u ∈ tasks, u.status = Status.pending ∧ t = { u with status := Status.processing } ∧
      (singleDequeue tasks).2 = setProcessing u.id tasks := by
  cases hf : findPending tasks with
  | none =>
    unfold singleDequeue at h
    rw [hf] at h
    simp at h
  | some u =>
    unfold singleDequeue at h
    rw [hf] at h
    rcases findPending_mem_pending hf with ⟨hm, hp⟩
    refine ⟨u, hm, hp, by simpa using h.symm, ?_⟩
    unfold singleDequeue
    rw [hf]

/-- C2 counterexample: two processes share one file backend; both reach the
`await this.loadTasks()` suspension point before either saves (each process
owns its own in-memory `dequeueLock`, so neither blocks the other).  Both
dequeue invocations return the task with id 1 — the same pending task is
delivered to two callers, so the returned ids are not distinct. -/
theorem crossProcess_double_dequeue :
    (twoProcessFileDequeue 0 [mkTask 1 Status.pending 0 0 0 3 100 0]).1 =
      some (mkTask 1 Status.processing 0 0 0 3 100 0) ∧
    (twoProcessFileDequeue 0 [mkTask 1 Status.pending 0 0 0 3 100 0]).2.1 =
      some (mkTask 1 Status.processing 0 0 0 3 100 0) := by
  decide

/-- C2 (amended): exclusivity holds only for invocations serialised through one
process's engine state: a dequeue that observes the in-process lock held
returns none, and two dequeues applied in sequence to the same engine state
never return the same task id.  Across processes over a non-atomic backend the
guarantee fails (see the counterexample). -/
theorem serialized_dequeue_distinct (tasks : List Task) :
    (singleDequeueLocked true tasks = (none, tasks)) ∧
    ∀ t₁ t₂, (singleDequeue tasks).1 = some t₁ →
      (singleDequeue (singleDequeue tasks).2).1 = some t₂ → t₁.id ≠ t₂.id := by
  refine ⟨rfl, ?_⟩
  intro t₁ t₂ h₁ h₂
  rcases singleDequeue_some_inv h₁ with ⟨u₁, hu₁, hp₁, ht₁, hs₁⟩
  rcases singleDequeue_some_inv h₂ with ⟨u₂, hu₂, hp₂, ht₂, _⟩
  rw [hs₁] at hu₂
  unfold setProcessing at hu₂
  rcases List.mem_map.mp hu₂ with ⟨v, hv, hvu⟩
  by_cases hid : v.id = u₁.id
  · rw [if_pos hid] at hvu
    rw [← hvu] at hp₂
    simp at hp₂
  · rw [if_neg hid] at hvu
    subst hvu
    subst ht₁
    subst ht₂
    exact fun hh => hid (by simpa using hh.symm)

/-- C2 amended-theorem witness: on a two-task queue the two sequential
dequeues return tasks with distinct ids, and a locked dequeue returns none. -/
theorem serialized_dequeue_distinct_witness :
    (singleDequeueLocked true
      [mkTask 1 Status.pending 0 0 0 3 100 0, mkTask 2 Status.pending 0 5 5 3 100 0] =
      (none, [mkTask 1 Status.pending 0 0 0 3 100 0, mkTask 2 Status.pending 0 5 5 3 100 0])) ∧
    (mkTask 1 Status.processing 0 0 0 3 100 0).id ≠
      (mkTask 2 Status.processing 0 5 5 3 100 0).id :=
  ⟨(serialized_dequeue_distinct
      [mkTask 1 Status.pending 0 0 0 3 100 0, mkTask 2 Status.pending 0 5 5 3 100 0]).1,
   (serialized_dequeue_distinct
      [mkTask 1 Status.pending 0 0 0 3 100 0, mkTask 2 Status.pending 0 5 5 3 100 0]).2
     (mkTask 1 Status.processing 0 0 0 3 100 0)
     (mkTask 2 Status.processing 0 5 5 3 100 0)
     (by decide) (by decide)⟩

/-- The message of the error attached to the `taskFailed` emission of the stuck
scan. -/
def stuckFailMsg (u : Task) : String :=
  let i := u.id
  let m := u.maxRetries
  s!"Task {i} failed after {m} retries"

/-- Per-task effect of the stuck scan (derived characterisation, proved
against the threaded `checkAndHandleStuckTasks`): a `processing` task whose
elapsed time strictly exceeds its `maxProcessingTime` is reset to `pending`
with `retryCount` incremented when `retryCount < maxRetries`, and failed
otherwise (its `log` untouched); every other task is unchanged. -/
def stuckAction (now : Int) (u : Task) : Task :=
  if u.status = Status.processing ∧ now - u.updatedAt > (u.maxProcessingTime : Int) then
    if u.retryCount < u.maxRetries then
      { u with retryCount := u.retryCount + 1, status := Status.pending, updatedAt := now }
    else { u with status := Status.failed, updatedAt := now }
  else u

/-- Per-task events of the stuck scan (derived characterisation). -/
def stuckEvents (now : Int) (u : Task) : List Event :=
  if u.status = Status.processing ∧ now - u.updatedAt > (u.maxProcessingTime : Int) then
    if u.retryCount < u.maxRetries then
      [Event.taskStuck u, Event.taskRetried { u with retryCount := u.retryCount + 1, status := Status.pending, updatedAt := now }]
    else [Event.taskStuck u, Event.taskFailed u (stuckFailMsg u)]
  else []

theorem find?_append_none {p : Task → Bool} {l₁ l₂ : List Task}
    (h : ∀ x ∈ l₁, ¬ p x = true) : (l₁ ++ l₂).find? p = l₂.find? p := by
  induction l₁ with
  | nil => rfl
  | cons x xs ih =>
    rw [List.cons_append, List.find?_cons_of_neg _ (by simpa using h x (List.mem_cons_self _ _))]
    exact ih (fun y hy => h y (List.mem_cons_of_mem _ hy))

theorem updateFirst_cons (id : Nat) (f : Task → Task) (t : Task) (ts : List Task) :
    updateFirst id f (t :: ts) = if t.id = id then f t :: ts else t :: updateFirst id f ts := rfl

theorem updateFirst_append_no_match {id : Nat} {f : Task → Task} {l₁ l₂ : List Task}
    (h : ∀ x ∈ l₁, x.id ≠ id) :
    updateFirst id f (l₁ ++ l₂) = l₁ ++ updateFirst id f l₂ := by
  induction l₁ with
  | nil => rfl
  | cons x xs ih =>
    rw [List.cons_append, updateFirst_cons, if_neg (h x (List.mem_cons_self _ _)),
      ih (fun y hy => h y (List.mem_cons_of_mem _ hy)), List.cons_append]

theorem checkStuckGo_char (now : Int) (suf : List Task) :
    ∀ pre : List Task,
    (∀ x ∈ pre, ∀ y ∈ suf, x.id ≠ y.id) →
    suf.Pairwise (fun a b => a.id ≠ b.id) →
    checkStuckGo now (suf.map (fun t => t.id)) (pre ++ suf) =
      (pre ++ suf.map (stuckAction now), (suf.map (stuckEvents now)).flatten) := by
  induction suf with
  | nil => intro pre _ _; simp [checkStuckGo]
  | cons u rest ih =>
    intro pre hdisj hpw
    rcases List.pairwise_cons.mp hpw with ⟨hu, hrest⟩
    have hprenotu : ∀ x ∈ pre, x.id ≠ u.id := fun x hx =>
      hdisj x hx u (List.mem_cons_self _ _)
    have hfind : (pre ++ u :: rest).find? (fun x => x.id == u.id) = some u := by
      rw [find?_append_none (fun x hx => by simpa using hprenotu x hx)]
      exact List.find?_cons_of_pos _ (by simp)
    have hpre1 : ∀ z : Task, z.id = u.id →
        ∀ x ∈ pre ++ [z], ∀ y ∈ rest, x.id ≠ y.id := by
      intro z hz x hx y hy
      rcases List.mem_append.mp hx with hx | hx
      · exact hdisj x hx y (List.mem_cons_of_mem _ hy)
      · rcases List.mem_singleton.mp hx with rfl
        rw [hz]
        exact hu y hy
    simp only [List.map_cons, checkStuckGo, hfind]
    by_cases hstat : u.status = Status.processing
    · by_cases helap : now - u.updatedAt > (u.maxProcessingTime : Int)
      · by_cases hretry : u.retryCount < u.maxRetries
        · rw [if_neg (by simpa using hstat), if_pos helap, if_pos hretry]
          have hupd : (baseUpdateTask now u.id { retryCount := some (u.retryCount + 1), status := some Status.pending } (pre ++ u :: rest)).2 = (pre ++ [{ u with retryCount := u.retryCount + 1, status := Status.pending, updatedAt := now }]) ++ rest := by
            unfold baseUpdateTask
            rw [hfind, updateFirst_append_no_match hprenotu, updateFirst_cons, if_pos rfl]
            simp [applyUpdate]
          have hact : stuckAction now u = { u with retryCount := u.retryCount + 1, status := Status.pending, updatedAt := now } := by
            unfold stuckAction
            rw [if_pos ⟨hstat, helap⟩, if_pos hretry]
          have hevt : stuckEvents now u = [Event.taskStuck u, Event.taskRetried { u with retryCount := u.retryCount + 1, status := Status.pending, updatedAt := now }] := by
            unfold stuckEvents
            rw [if_pos ⟨hstat, helap⟩, if_pos hretry]
          rw [hupd, ih (pre ++ [{ u with retryCount := u.retryCount + 1, status := Status.pending, updatedAt := now }]) (hpre1 _ rfl) hrest, hact, hevt]
          simp
        · rw [if_neg (by simpa using hstat), if_pos helap, if_neg hretry]
          have hupd : (baseUpdateTask now u.id { status := some Status.failed } (pre ++ u :: rest)).2 = (pre ++ [{ u with status := Status.failed, updatedAt := now }]) ++ rest := by
            unfold baseUpdateTask
            rw [hfind, updateFirst_append_no_match hprenotu, updateFirst_cons, if_pos rfl]
            simp [applyUpdate]
          have hact : stuckAction now u = { u with status := Status.failed, updatedAt := now } := by
            unfold stuckAction
            rw [if_pos ⟨hstat, helap⟩, if_neg hretry]
          have hevt : stuckEvents now u = [Event.taskStuck u, Event.taskFailed u (stuckFailMsg u)] := by
            unfold stuckEvents
            rw [if_pos ⟨hstat, helap⟩, if_neg hretry]
          rw [hupd, ih (pre ++ [{ u with status := Status.failed, updatedAt := now }]) (hpre1 _ rfl) hrest, hact, hevt]
          unfold stuckFailMsg
          simp
      · rw [if_neg (by simpa using hstat), if_neg helap]
        have hcur : pre ++ u :: rest = (pre ++ [u]) ++ rest := by simp
        have hact : stuckAction now u = u := by
          unfold stuckAction
          rw [if_neg (by tauto)]
        have hevt : stuckEvents now u = [] := by
          unfold stuckEvents
          rw [if_neg (by tauto)]
        rw [hcur, ih _ (hpre1 _ rfl) hrest, hact, hevt]
        simp
    · rw [if_pos (by simpa using hstat)]
      have hcur : pre ++ u :: rest = (pre ++ [u]) ++ rest := by simp
      have hact : stuckAction now u = u := by
        unfold stuckAction
        rw [if_neg (by tauto)]
      have hevt : stuckEvents now u = [] := by
        unfold stuckEvents
        rw [if_neg (by tauto)]
      rw [hcur, ih _ (hpre1 _ rfl) hrest, hact, hevt]
      simp

/-- The stuck scan, characterised task by task (requires the pairwise-distinct
ids the engine maintains). -/
theorem checkAndHandleStuckTasks_char (now : Int) (tasks : List Task)
    (hids : tasks.Pairwise (fun a b => a.id ≠ b.id)) :
    checkAndHandleStuckTasks now tasks =
      (tasks.map (stuckAction now), (tasks.map (stuckEvents now)).flatten) := by
  have := checkStuckGo_char now tasks [] (by simp) hids
  simpa [checkAndHandleStuckTasks] using this

/-- C3 counterexample: a processing task past its limit and out of retries
(retryCount 5 ≥ maxRetries 1, elapsed 100 > 10) is failed by the stuck scan,
but the stored row's `log` stays empty: the cited code updates only `status`
(and `updatedAt`), so no log recording the retry exhaustion is written to the
task. -/
theorem stuck_fail_log_unchanged :
    (checkAndHandleStuckTasks 100 [mkTask 1 Status.processing 0 0 0 1 10 5]).1 =
      [mkTask 1 Status.failed 0 0 100 1 10 5] ∧
    (mkTask 1 Status.failed 0 0 100 1 10 5).log = "" := by
  decide

/-- C3 (amended): the stuck scan retries or fails exactly those processing
tasks whose elapsed time strictly exceeds their effective maxProcessingTime
(equal elapsed time is untouched); below the retry cap the task is reset to
pending with retryCount incremented by one and updatedAt = now, emitting
`stuck` then `retried`; otherwise it is failed with updatedAt = now, emitting
`stuck` then `failed` — the exhaustion message
`Task {id} failed after {maxRetries} retries` is carried by the taskFailed
event's error (and the logger), while the task's own `log` field is left
unchanged. -/
theorem stuck_scan_char (now : Int) (tasks : List Task)
    (hids : tasks.Pairwise (fun a b => a.id ≠ b.id)) :
    (checkAndHandleStuckTasks now tasks).1 = tasks.map (stuckAction now) ∧
    (checkAndHandleStuckTasks now tasks).2 = (tasks.map (stuckEvents now)).flatten ∧
    (∀ u : Task, u.status ≠ Status.processing ∨ now - u.updatedAt ≤ (u.maxProcessingTime : Int) →
      stuckAction now u = u ∧ stuckEvents now u = []) ∧
    (∀ u : Task, u.status = Status.processing → now - u.updatedAt > (u.maxProcessingTime : Int) →
      (u.retryCount < u.maxRetries →
        stuckAction now u = { u with retryCount := u.retryCount + 1, status := Status.pending, updatedAt := now } ∧
        stuckEvents now u = [Event.taskStuck u, Event.taskRetried { u with retryCount := u.retryCount + 1, status := Status.pending, updatedAt := now }]) ∧
      (u.maxRetries ≤ u.retryCount →
        stuckAction now u = { u with status := Status.failed, updatedAt := now } ∧
        (stuckAction now u).log = u.log ∧
        stuckEvents now u = [Event.taskStuck u, Event.taskFailed u (stuckFailMsg u)])) := by
  have hchar := checkAndHandleStuckTasks_char now tasks hids
  refine ⟨by rw [hchar], by rw [hchar], ?_, ?_⟩
  · intro u hu
    have hneg : ¬ (u.status = Status.processing ∧
        now - u.updatedAt > (u.maxProcessingTime : Int)) := by
      rintro ⟨h1, h2⟩
      rcases hu with hu | hu
      · exact hu h1
      · omega
    constructor
    · unfold stuckAction
      rw [if_neg hneg]
    · unfold stuckEvents
      rw [if_neg hneg]
  · intro u hstat helap
    constructor
    · intro hretry
      constructor
      · unfold stuckAction
        rw [if_pos ⟨hstat, helap⟩, if_pos hretry]
      · unfold stuckEvents
        rw [if_pos ⟨hstat, helap⟩, if_pos hretry]
    · intro hexh
      have hretry : ¬ u.retryCount < u.maxRetries := by omega
      refine ⟨?_, ?_, ?_⟩
      · unfold stuckAction
        rw [if_pos ⟨hstat, helap⟩, if_neg hretry]
      · unfold stuckAction
        rw [if_pos ⟨hstat, helap⟩, if_neg hretry]
      · unfold stuckEvents
        rw [if_pos ⟨hstat, helap⟩, if_neg hretry]

/-- C3 amended-theorem witness: a stuck task with retry budget is reset to
pending with the counter bumped, an idle pending task is untouched. -/
theorem stuck_scan_char_witness :
    (checkAndHandleStuckTasks 100
      [mkTask 1 Status.processing 0 0 0 3 10 1, mkTask 2 Status.pending 0 0 0 3 10 0]).1 =
      [mkTask 1 Status.processing 0 0 0 3 10 1,
       mkTask 2 Status.pending 0 0 0 3 10 0].map (stuckAction 100) :=
  (stuck_scan_char 100
    [mkTask 1 Status.processing 0 0 0 3 10 1, mkTask 2 Status.pending 0 0 0 3 10 0]
    (by decide)).1

/-- C4 counterexample: the memory/file dequeue (`BaseQueueRepository.dequeue`)
flips the selected task to processing but leaves `updatedAt` at its old value
5 — not the dequeue time 1000 — both in the returned task and in the stored
list, so a processing task's `updatedAt` is not its most recent dequeue
time on these backends. -/
theorem base_dequeue_keeps_updatedAt :
    (baseDequeue 1000 [mkTask 1 Status.pending 0 0 5 3 100 0]).1 =
      some (mkTask 1 Status.processing 0 0 5 3 100 0) ∧
    (baseDequeue 1000 [mkTask 1 Status.pending 0 0 5 3 100 0]).2.1 =
      [mkTask 1 Status.processing 0 0 5 3 100 0] ∧
    (mkTask 1 Status.processing 0 0 5 3 100 0).updatedAt ≠ 1000 := by
  decide

/-- C4 (amended): the Postgres dequeue stamps the stored row with
`status='processing', updated_at=NOW()` when it selects a task (though the
object it returns is the pre-update row, still pending with the old
timestamp); the Redis dequeue, whenever it returns a task, has stamped that
task with `status='processing'` and `updatedAt = now` before writing it back
to the store; but the shared base dequeue used by the memory and file
backends flips only `status` and leaves `updatedAt` unchanged, so on those
backends a processing task's `updatedAt` is the time of its last update, not
necessarily its most recent dequeue. -/
theorem dequeue_updatedAt_char (now : Int) (tasks : List Task) (sn : String)
    (tid : Nat) (lock : Bool) (store : List (String × Task)) :
    (∀ t, (pgDequeue now tasks).1 = some t →
      t ∈ tasks ∧ t.status = Status.pending ∧
      { t with status := Status.processing, updatedAt := now } ∈ (pgDequeue now tasks).2.1) ∧
    (∀ t store', redisDequeue sn now tid lock store = (some t, store') →
      t.status = Status.processing ∧ t.updatedAt = now ∧
      redisGet store' (sn ++ ":task:" ++ toString tid) = some t) ∧
    (∀ t, (baseDequeue now tasks).1 = some t →
      ∃ u ∈ tasks, u.status = Status.pending ∧
        t = { u with status := Status.processing } ∧ t.updatedAt = u.updatedAt) := by
  refine ⟨?_, ?_, ?_⟩
  · intro t ht
    cases hf : findPending tasks with
    | none =>
      unfold pgDequeue at ht
      rw [hf] at ht
      simp at ht
    | some w =>
      unfold pgDequeue at ht
      rw [hf] at ht
      simp only [Option.some.injEq] at ht
      cases ht
      rcases findPending_mem_pending hf with ⟨hm, hp⟩
      refine ⟨hm, hp, ?_⟩
      unfold pgDequeue
      rw [hf]
      exact List.mem_map.mpr ⟨t, hm, by simp⟩
  · intro t store' h
    unfold redisDequeue at h
    split at h
    · simp at h
    · rename_i w hg
      split at h
      · simp at h
      · simp only [Prod.mk.injEq, Option.some.injEq] at h
        rcases h with ⟨ht, hstore⟩
        refine ⟨by rw [← ht], by rw [← ht], ?_⟩
        rw [← hstore, ← ht]
        exact redisGet_set _ _ _
  · intro t ht
    cases hf : findPending tasks with
    | none =>
      unfold baseDequeue at ht
      rw [hf] at ht
      simp at ht
    | some w =>
      unfold baseDequeue at ht
      rw [hf] at ht
      simp only [Option.some.injEq] at ht
      rcases findPending_mem_pending hf with ⟨hm, hp⟩
      exact ⟨w, hm, hp, ht.symm, by rw [← ht]⟩

/-- C4 amended-theorem witness: on a one-task queue, the Postgres dequeue
stores the row restamped with `updatedAt = 1000`, while returning the
pre-update pending row; the Redis dequeue, when its `queue:task:` read finds
a body, returns it flipped to processing with `updatedAt = 1000`. -/
theorem dequeue_updatedAt_char_witness :
    (mkTask 1 Status.pending 0 0 5 3 100 0 ∈ [mkTask 1 Status.pending 0 0 5 3 100 0] ∧
     (mkTask 1 Status.pending 0 0 5 3 100 0).status = Status.pending ∧
     { mkTask 1 Status.pending 0 0 5 3 100 0 with
       status := Status.processing, updatedAt := (1000 : Int) } ∈
       (pgDequeue 1000 [mkTask 1 Status.pending 0 0 5 3 100 0]).2.1) ∧
    ((mkTask 1 Status.processing 0 0 1000 3 100 0).status = Status.processing ∧
     (mkTask 1 Status.processing 0 0 1000 3 100 0).updatedAt = 1000 ∧
     redisGet (redisDequeue "queue-manager" 1000 1 true
         [("queue-manager:queue:task:1", mkTask 1 Status.pending 0 0 5 3 100 0)]).2
       ("queue-manager" ++ ":task:" ++ toString 1) =
       some (mkTask 1 Status.processing 0 0 1000 3 100 0)) :=
  ⟨(dequeue_updatedAt_char 1000 [mkTask 1 Status.pending 0 0 5 3 100 0]
      "queue-manager" 1 true
      [("queue-manager:queue:task:1", mkTask 1 Status.pending 0 0 5 3 100 0)]).1
    (mkTask 1 Status.pending 0 0 5 3 100 0) (by decide),
   (dequeue_updatedAt_char 1000 [mkTask 1 Status.pending 0 0 5 3 100 0]
      "queue-manager" 1 true
      [("queue-manager:queue:task:1", mkTask 1 Status.pending 0 0 5 3 100 0)]).2.1
    (mkTask 1 Status.processing 0 0 1000 3 100 0)
    (redisDequeue "queue-manager" 1000 1 true
      [("queue-manager:queue:task:1", mkTask 1 Status.pending 0 0 5 3 100 0)]).2
    (by decide)⟩

/-- The retry-accounting invariant: every stored task satisfies
`retryCount ≤ maxRetries + 1` (the lower bound `0 ≤ retryCount` is the `Nat`
embedding of a counter that starts at 0 and only increments). -/
def RetryInv (s : List Task) : Prop := ∀ t ∈ s, t.retryCount ≤ t.maxRetries + 1

theorem retryInv_updateFirst {id : Nat} {f : Task → Task} {s : List Task}
    (hf : ∀ t ∈ s, t.retryCount ≤ t.maxRetries + 1 →
      (f t).retryCount ≤ (f t).maxRetries + 1)
    (h : RetryInv s) : RetryInv (updateFirst id f s) := by
  induction s with
  | nil => exact h
  | cons x xs ih =>
    rw [updateFirst_cons]
    split
    · intro t ht
      rcases List.mem_cons.mp ht with rfl | ht
      · exact hf x (List.mem_cons_self _ _) (h x (List.mem_cons_self _ _))
      · exact h t (List.mem_cons_of_mem _ ht)
    · intro t ht
      rcases List.mem_cons.mp ht with rfl | ht
      · exact h t (List.mem_cons_self _ _)
      · exact ih (fun z hz => hf z (List.mem_cons_of_mem _ hz))
          (fun z hz => h z (List.mem_cons_of_mem _ hz)) t ht

theorem updateFirst_decomp {id : Nat} {f : Task → Task} {s : List Task} {u : Task}
    (h : s.find? (fun t => t.id == id) = some u) :
    ∃ l₁ l₂, s = l₁ ++ u :: l₂ ∧ updateFirst id f s = l₁ ++ f u :: l₂ ∧
      (∀ x ∈ l₁, x.id ≠ id) ∧ u.id = id := by
  rcases find?_decomp h with ⟨l₁, l₂, rfl, hl₁⟩
  have hid : u.id = id := by simpa using List.find?_some h
  refine ⟨l₁, l₂, rfl, ?_, fun x hx => by simpa using hl₁ x hx, hid⟩
  rw [updateFirst_append_no_match (fun x hx => by simpa using hl₁ x hx),
    updateFirst_cons, if_pos hid]

theorem retryInv_updateFound {id : Nat} {f : Task → Task} {s : List Task} {u : Task}
    (hfind : s.find? (fun t => t.id == id) = some u)
    (hfu : (f u).retryCount ≤ (f u).maxRetries + 1)
    (h : RetryInv s) : RetryInv (updateFirst id f s) := by
  rcases updateFirst_decomp (f := f) hfind with ⟨l₁, l₂, hs, hupd, _, _⟩
  rw [hupd]
  subst hs
  intro t ht
  rcases List.mem_append.mp ht with ht | ht
  · exact h t (List.mem_append.mpr (Or.inl ht))
  · rcases List.mem_cons.mp ht with rfl | ht
    · exact hfu
    · exact h t (List.mem_append.mpr (Or.inr (List.mem_cons_of_mem _ ht)))

theorem retryInv_checkStuckGo (now : Int) (wl : List Nat) :
    ∀ cur : List Task, RetryInv cur → RetryInv (checkStuckGo now wl cur).1 := by
  induction wl with
  | nil => intro cur h; exact h
  | cons i rest ih =>
    intro cur h
    cases hfind : cur.find? (fun u => u.id == i) with
    | none =>
      simp only [checkStuckGo, hfind]
      exact ih cur h
    | some u =>
      have humem : u ∈ cur := List.mem_of_find?_eq_some hfind
      simp only [checkStuckGo, hfind]
      by_cases hstat : u.status = Status.processing
      · by_cases helap : now - u.updatedAt > (u.maxProcessingTime : Int)
        · by_cases hretry : u.retryCount < u.maxRetries
          · rw [if_neg (by simpa using hstat), if_pos helap, if_pos hretry]
            refine ih _ ?_
            have hres : RetryInv (updateFirst i (fun t => { applyUpdate { retryCount := some (u.retryCount + 1), status := some Status.pending } t with updatedAt := now }) cur) :=
              retryInv_updateFound hfind (by simp [applyUpdate]; omega) h
            unfold baseUpdateTask
            rw [hfind]
            exact hres
          · rw [if_neg (by simpa using hstat), if_pos helap, if_neg hretry]
            refine ih _ ?_
            have hres : RetryInv (updateFirst i (fun t => { applyUpdate { status := some Status.failed } t with updatedAt := now }) cur) :=
              retryInv_updateFound hfind (by simpa [applyUpdate] using h u humem) h
            unfold baseUpdateTask
            rw [hfind]
            exact hres
        · rw [if_neg (by simpa using hstat), if_neg helap]
          exact ih cur h
      · rw [if_pos (by simpa using hstat)]
        exact ih cur h

theorem retryInv_addTask (cfg : EngineConfig) (he : Option HandlerOptions) (nid : Nat)
    (hname pl : String) (opts : Option AddTaskOptions) (now : Int) (s : List Task)
    (hinv : RetryInv s) : RetryInv (addTaskToQueue cfg he nid hname pl opts now s).2.1 := by
  intro t ht
  have ht' : t ∈ s ++ [(addTaskToQueue cfg he nid hname pl opts now s).1] := ht
  rcases List.mem_append.mp ht' with h1 | h1
  · exact hinv t h1
  · rcases List.mem_singleton.mp h1 with rfl
    exact Nat.zero_le _

theorem retryInv_singleDequeue (s : List Task) (hinv : RetryInv s) :
    RetryInv (singleDequeue s).2 := by
  unfold singleDequeue
  split
  · rename_i t _
    intro x hx
    have hx' : x ∈ setProcessing t.id s := hx
    unfold setProcessing at hx'
    rcases List.mem_map.mp hx' with ⟨v, hv, rfl⟩
    split
    · exact hinv v hv
    · exact hinv v hv
  · exact hinv

theorem retryInv_checkAndHandle (now : Int) (s : List Task) (hinv : RetryInv s) :
    RetryInv (checkAndHandleStuckTasks now s).1 := by
  unfold checkAndHandleStuckTasks
  exact retryInv_checkStuckGo now (s.map (fun t => t.id)) s hinv

theorem retryInv_timeoutRetry (i : Nat) (s : List Task) (hinv : RetryInv s) :
    RetryInv (workerTimeoutRetry i s) := by
  unfold workerTimeoutRetry
  refine retryInv_updateFirst ?_ hinv
  intro t _ hb
  split
  · rename_i hle
    exact Nat.succ_le_succ hle
  · exact hb

theorem retryInv_updateTaskStatus (now : Int) (i : Nat) (st : Status) (log : Option String)
    (s : List Task) (hinv : RetryInv s) : RetryInv (updateTaskStatus now i st log s).2 := by
  unfold updateTaskStatus
  split
  · rename_i t _
    refine retryInv_updateFirst ?_ hinv
    intro x _ hb
    exact hb
  · exact hinv

theorem retryInv_step {s s' : List Task} (h : EngineStep s s') (hinv : RetryInv s) :
    RetryInv s' := by
  cases h
  · exact retryInv_addTask _ _ _ _ _ _ _ _ hinv
  · exact retryInv_singleDequeue _ hinv
  · exact retryInv_checkAndHandle _ _ hinv
  · exact retryInv_timeoutRetry _ _ hinv
  · exact retryInv_updateTaskStatus _ _ _ _ _ hinv

theorem retryInv_reachable {s : List Task} (h : EngineReachable s) : RetryInv s := by
  unfold EngineReachable at h
  induction h with
  | refl => intro t ht; simp at ht
  | tail _ hstep ih => exact retryInv_step hstep ih

/-- C5 (amended): in every state reachable through the engine's operations
(enqueue, dequeue, stuck detection, the worker's timeout retry, worker status
updates), every task satisfies `0 ≤ retryCount ≤ maxRetries + 1` (the lower
bound is the `Nat` embedding of a counter starting at 0).  However,
`maxRetries + 1` is reached by the part_002 worker timeout path upon its final
retry — such a task is re-run and may still complete as `done` — so the value
is not exclusive to terminal failure (see the counterexample). -/
theorem retryCount_bounded (s : List Task) (h : EngineReachable s) :
    ∀ t ∈ s, t.retryCount ≤ t.maxRetries + 1 :=
  retryInv_reachable h

/-- C5 witness: one enqueue step from the empty queue; the bound holds for the
enqueued task in the resulting state. -/
theorem retryCount_bounded_witness :
    (mkTask 1 Status.pending 0 0 0 0 100 0).retryCount ≤
      (mkTask 1 Status.pending 0 0 0 0 100 0).maxRetries + 1 := by
  refine retryCount_bounded [mkTask 1 Status.pending 0 0 0 0 100 0]
    (Relation.ReflTransGen.single ?_) _ (by decide)
  have e : (addTaskToQueue ⟨1, 100⟩ none 1 "h" "p"
      (some ⟨some 0, none, none⟩) 0 []).2.1 =
      [mkTask 1 Status.pending 0 0 0 0 100 0] := by decide
  exact e ▸ EngineStep.add ⟨1, 100⟩ none 1 "h" "p" (some ⟨some 0, none, none⟩) 0 []

/-- C5 counterexample: a reachable trace — enqueue with maxRetries 0, dequeue,
one worker timeout-retry (part_002 increments because retryCount 0 ≤
maxRetries 0, emitting `taskRetried`), then the retried attempt succeeds and
the worker records `done` — ends in a state whose task has
retryCount = maxRetries + 1 = 1 with status `done`: the value maxRetries + 1
is reached without terminal failure. -/
theorem retry_cap_reached_at_done :
    EngineReachable [mkTask 1 Status.done 0 0 5 0 100 1] ∧
    (mkTask 1 Status.done 0 0 5 0 100 1).retryCount =
      (mkTask 1 Status.done 0 0 5 0 100 1).maxRetries + 1 ∧
    (mkTask 1 Status.done 0 0 5 0 100 1).status ≠ Status.failed := by
  refine ⟨?_, by decide, by decide⟩
  have s1 : EngineStep [] [mkTask 1 Status.pending 0 0 0 0 100 0] := by
    have e : (addTaskToQueue ⟨1, 100⟩ none 1 "h" "p"
        (some ⟨some 0, none, none⟩) 0 []).2.1 =
        [mkTask 1 Status.pending 0 0 0 0 100 0] := by decide
    exact e ▸ EngineStep.add ⟨1, 100⟩ none 1 "h" "p" (some ⟨some 0, none, none⟩) 0 []
  have s2 : EngineStep [mkTask 1 Status.pending 0 0 0 0 100 0]
      [mkTask 1 Status.processing 0 0 0 0 100 0] := by
    have e : (singleDequeue [mkTask 1 Status.pending 0 0 0 0 100 0]).2 =
        [mkTask 1 Status.processing 0 0 0 0 100 0] := by decide
    exact e ▸ EngineStep.dequeue _
  have s3 : EngineStep [mkTask 1 Status.processing 0 0 0 0 100 0]
      [mkTask 1 Status.processing 0 0 0 0 100 1] := by
    have e : workerTimeoutRetry 1 [mkTask 1 Status.processing 0 0 0 0 100 0] =
        [mkTask 1 Status.processing 0 0 0 0 100 1] := by decide
    exact e ▸ EngineStep.timeoutRetry 1 _
  have s4 : EngineStep [mkTask 1 Status.processing 0 0 0 0 100 1]
      [mkTask 1 Status.done 0 0 5 0 100 1] := by
    have e : (updateTaskStatus 5 1 Status.done none
        [mkTask 1 Status.processing 0 0 0 0 100 1]).2 =
        [mkTask 1 Status.done 0 0 5 0 100 1] := by decide
    exact e ▸ EngineStep.statusUpdate 5 1 Status.done none _
  exact Relation.ReflTransGen.head s1 (Relation.ReflTransGen.head s2
    (Relation.ReflTransGen.head s3 (Relation.ReflTransGen.single s4)))

/-- C6: for every handler name (registered — `he = some _` — or not), payload
and options, `addTaskToQueue` returns, appends and announces a task with
status pending, retryCount 0, the given handler name and payload, both
timestamps now, and `maxRetries`/`maxProcessingTime` resolved with precedence
task-level option over handler-level registration option over engine default;
`taskAdded` is emitted exactly once, with that task. -/
theorem addTask_spec (cfg : EngineConfig) (he : Option HandlerOptions) (nid : Nat)
    (hname pl : String) (opts : Option AddTaskOptions) (now : Int) (s : List Task)
    (r : Task) (s' : List Task) (evs : List Event)
    (h : addTaskToQueue cfg he nid hname pl opts now s = (r, s', evs)) :
    r.status = Status.pending ∧ r.retryCount = 0 ∧ r.handler = hname ∧
    r.payload = pl ∧ r.id = nid ∧ r.createdAt = now ∧ r.updatedAt = now ∧
    s' = s ++ [r] ∧ evs = [Event.taskAdded r] ∧
    (∀ v, opts.bind AddTaskOptions.maxRetries = some v → r.maxRetries = v) ∧
    (opts.bind AddTaskOptions.maxRetries = none →
      ∀ v, he.bind HandlerOptions.maxRetries = some v → r.maxRetries = v) ∧
    (opts.bind AddTaskOptions.maxRetries = none →
      he.bind HandlerOptions.maxRetries = none → r.maxRetries = cfg.MAX_RETRIES) ∧
    (∀ v, opts.bind AddTaskOptions.maxProcessingTime = some v → r.maxProcessingTime = v) ∧
    (opts.bind AddTaskOptions.maxProcessingTime = none →
      ∀ v, he.bind HandlerOptions.maxProcessingTime = some v → r.maxProcessingTime = v) ∧
    (opts.bind AddTaskOptions.maxProcessingTime = none →
      he.bind HandlerOptions.maxProcessingTime = none →
      r.maxProcessingTime = cfg.MAX_PROCESSING_TIME) := by
  have h' := h.symm
  cases h'
  refine ⟨rfl, rfl, rfl, rfl, rfl, rfl, rfl, rfl, rfl, ?_, ?_, ?_, ?_, ?_, ?_⟩
  · intro v hv
    show ((opts.bind AddTaskOptions.maxRetries) <|>
      (he.bind HandlerOptions.maxRetries)).getD cfg.MAX_RETRIES = v
    rw [hv]
    rfl
  · intro h1 v hv
    show ((opts.bind AddTaskOptions.maxRetries) <|>
      (he.bind HandlerOptions.maxRetries)).getD cfg.MAX_RETRIES = v
    rw [h1, hv]
    rfl
  · intro h1 h2
    show ((opts.bind AddTaskOptions.maxRetries) <|>
      (he.bind HandlerOptions.maxRetries)).getD cfg.MAX_RETRIES = cfg.MAX_RETRIES
    rw [h1, h2]
    rfl
  · intro v hv
    show ((opts.bind AddTaskOptions.maxProcessingTime) <|>
      (he.bind HandlerOptions.maxProcessingTime)).getD cfg.MAX_PROCESSING_TIME = v
    rw [hv]
    rfl
  · intro h1 v hv
    show ((opts.bind AddTaskOptions.maxProcessingTime) <|>
      (he.bind HandlerOptions.maxProcessingTime)).getD cfg.MAX_PROCESSING_TIME = v
    rw [h1, hv]
    rfl
  · intro h1 h2
    show ((opts.bind AddTaskOptions.maxProcessingTime) <|>
      (he.bind HandlerOptions.maxProcessingTime)).getD cfg.MAX_PROCESSING_TIME =
      cfg.MAX_PROCESSING_TIME
    rw [h1, h2]
    rfl

/-- C6 witness: an unset task-level `maxRetries` falls back to the handler
registration's value 5, the task-level `maxProcessingTime` 2000 wins, and the
task is appended pending with `retryCount 0` and a single `taskAdded`. -/
theorem addTask_spec_witness :
    let r := (addTaskToQueue ⟨3, 600000⟩ (some ⟨some 5, some 9000⟩) 1 "sendEmail" "p"
      (some ⟨none, some 2000, some 7⟩) 42 []).1
    r.status = Status.pending ∧ r.retryCount = 0 ∧ r.maxRetries = 5 ∧
      r.maxProcessingTime = 2000 := by
  have h := addTask_spec ⟨3, 600000⟩ (some ⟨some 5, some 9000⟩) 1 "sendEmail" "p"
    (some ⟨none, some 2000, some 7⟩) 42 [] _ _ _ rfl
  exact ⟨h.1, h.2.1, h.2.2.2.2.2.2.2.2.2.2.1 (by decide) 5 (by decide),
    h.2.2.2.2.2.2.2.2.2.2.2.2.1 2000 (by decide)⟩

instance {e a : Type} [DecidableEq e] [DecidableEq a] : DecidableEq (Except e a) :=
  fun x y =>
  match x, y with
  | Except.ok v, Except.ok w =>
    if h : v = w then Decidable.isTrue (by rw [h])
    else Decidable.isFalse (by intro hh; injection hh with hh; exact h hh)
  | Except.error v, Except.error w =>
    if h : v = w then Decidable.isTrue (by rw [h])
    else Decidable.isFalse (by intro hh; injection hh with hh; exact h hh)
  | Except.ok _, Except.error _ => Decidable.isFalse (by intro hh; exact Except.noConfusion hh)
  | Except.error _, Except.ok _ => Decidable.isFalse (by intro hh; exact Except.noConfusion hh)

/-- C7 counterexample: the first soft delete of task 1 succeeds and emits
`taskRemoved`, but the second `removeTask` of the same id does not yield the
terminal row — it throws `Task with ID 1 is already deleted`. -/
theorem second_removeTask_errors :
    removeTask 1 [mkTask 1 Status.pending 0 0 0 3 100 0] =
      Except.ok (mkTask 1 Status.deleted 0 0 0 3 100 0,
        [mkTask 1 Status.deleted 0 0 0 3 100 0],
        [Event.taskRemoved (mkTask 1 Status.deleted 0 0 0 3 100 0)]) ∧
    removeTask 1 [mkTask 1 Status.deleted 0 0 0 3 100 0] =
      Except.error "Task with ID 1 is already deleted" := by
  decide

/-- C7 (amended): soft delete is idempotent on the stored row: a successful
`removeTask` flips the task to `deleted` and emits one `taskRemoved`; invoking
it again does not return the row — it throws `already deleted` without
touching the store or emitting anything.  The repository-level
`FileQueueRepository.deleteTask` is idempotent also in its return value: the
second soft delete returns the same terminal row and leaves the store
unchanged. -/
theorem soft_delete_idempotent (i : Nat) (tasks : List Task) :
    (∀ t s' evs, removeTask i tasks = Except.ok (t, s', evs) →
      t.status = Status.deleted ∧ evs = [Event.taskRemoved t] ∧
      removeTask i s' = Except.error (s!"Task with ID {i} is already deleted")) ∧
    (∀ t s', fileDeleteTask i false tasks = (some t, s') →
      fileDeleteTask i false s' = (some t, s')) := by
  constructor
  · intro t s' evs h
    unfold removeTask at h
    split at h
    · rename_i u hf
      split at h
      · simp only [Except.ok.injEq, Prod.mk.injEq] at h
        rcases h with ⟨ht, hs', hevs⟩
        rcases updateFirst_decomp (f := fun x => { x with status := Status.deleted }) hf
          with ⟨l₁, l₂, hsplit, hupd, hl₁, hid⟩
        refine ⟨by rw [← ht], by rw [← hevs, ht], ?_⟩
        have hfind' : s'.find? (fun x => x.id == i) =
            some { u with status := Status.deleted } := by
          rw [← hs', hupd, find?_append_none (fun x hx => by simpa using hl₁ x hx)]
          exact List.find?_cons_of_pos _ (by simpa using hid)
        simp only [removeTask, hfind']
        rw [if_neg (by simp)]
      · simp at h
    · simp at h
  · intro t s' h
    unfold fileDeleteTask at h
    split at h
    · simp at h
    · rename_i u hf
      rw [if_neg (by simp)] at h
      simp only [Prod.mk.injEq, Option.some.injEq] at h
      rcases h with ⟨ht, hs'⟩
      rcases updateFirst_decomp (f := fun x => { x with status := Status.deleted }) hf
        with ⟨l₁, l₂, hsplit, hupd, hl₁, hid⟩
      have hfind' : s'.find? (fun x => x.id == i) =
          some { u with status := Status.deleted } := by
        rw [← hs', hupd, find?_append_none (fun x hx => by simpa using hl₁ x hx)]
        exact List.find?_cons_of_pos _ (by simpa using hid)
      simp only [fileDeleteTask, hfind']
      rw [if_neg (by simp)]
      simp only [Prod.mk.injEq, Option.some.injEq]
      constructor
      · rw [← ht]
      · rw [← hs', hupd, updateFirst_append_no_match (fun x hx => by simpa using hl₁ x hx),
          updateFirst_cons, if_pos hid]

/-- C7 amended-theorem witness: a concrete delete-twice run on both layers. -/
theorem soft_delete_idempotent_witness :
    ((mkTask 2 Status.deleted 0 0 0 3 100 0).status = Status.deleted ∧
      [Event.taskRemoved (mkTask 2 Status.deleted 0 0 0 3 100 0)] =
        [Event.taskRemoved (mkTask 2 Status.deleted 0 0 0 3 100 0)] ∧
      removeTask 2 [mkTask 2 Status.deleted 0 0 0 3 100 0] =
        Except.error "Task with ID 2 is already deleted") ∧
    fileDeleteTask 2 false [mkTask 2 Status.deleted 0 0 0 3 100 0] =
      (some (mkTask 2 Status.deleted 0 0 0 3 100 0),
        [mkTask 2 Status.deleted 0 0 0 3 100 0]) :=
  ⟨(soft_delete_idempotent 2 [mkTask 2 Status.pending 0 0 0 3 100 0]).1
      (mkTask 2 Status.deleted 0 0 0 3 100 0)
      [mkTask 2 Status.deleted 0 0 0 3 100 0]
      [Event.taskRemoved (mkTask 2 Status.deleted 0 0 0 3 100 0)] (by decide),
   (soft_delete_idempotent 2 [mkTask 2 Status.pending 0 0 0 3 100 0]).2
      (mkTask 2 Status.deleted 0 0 0 3 100 0)
      [mkTask 2 Status.deleted 0 0 0 3 100 0] (by decide)⟩

/-- C8 counterexample: with a well-formed `.json` path and a missing backing
file, `loadTasks` does not return an empty task list — it throws
`FileRepositoryLoadError` (message: the path `does not exist. Please create
the directory first`). -/
theorem missing_file_is_error :
    fileLoadTasks "tasks.json" none none =
      Except.error (QMError.fileRepositoryLoad "tasks.json" "tasks.json") ∧
    ∀ ts : List Task, fileLoadTasks "tasks.json" none none ≠ Except.ok ts := by
  have h : fileLoadTasks "tasks.json" none none =
      Except.error (QMError.fileRepositoryLoad "tasks.json" "tasks.json") := by decide
  refine ⟨h, ?_⟩
  intro ts hts
  rw [h] at hts
  exact Except.noConfusion hts

/-- C8 (amended): `FileQueueRepository.loadTasks` fails with an error when the
configured path's extension is not `.json` (the type-mismatch error, rethrown
by the catch as `FileRepositoryReadError`), and it also fails — with
`FileRepositoryLoadError`, rather than returning an empty list — when the
backing file does not exist; only an existing file under a `.json` path
loads. -/
theorem fileLoadTasks_char (filePath : String) (file : Option (List Task))
    (status : Option Status) :
    (extname filePath ≠ ".json" →
      fileLoadTasks filePath file status =
        Except.error (QMError.fileRepositoryRead filePath
          "File path must end with .json format.")) ∧
    (extname filePath = ".json" → file = none →
      fileLoadTasks filePath file status =
        Except.error (QMError.fileRepositoryLoad filePath filePath)) ∧
    (extname filePath = ".json" → ∀ ts, file = some ts →
      fileLoadTasks filePath file status =
        Except.ok (match status with
          | some st => ts.filter (fun t => t.status == st)
          | none => ts)) := by
  refine ⟨?_, ?_, ?_⟩
  · intro hext
    unfold fileLoadTasks
    rw [if_pos hext]
  · intro hext hnone
    unfold fileLoadTasks
    rw [if_neg (by simp [hext]), hnone]
  · intro hext ts hsome
    unfold fileLoadTasks
    rw [if_neg (by simp [hext]), hsome]
    cases status with
    | none => rfl
    | some st => rfl

/-- C8 amended-theorem witness: a `.txt` path is rejected, a missing `.json`
file raises the load error, and a present file loads. -/
theorem fileLoadTasks_char_witness :
    (fileLoadTasks "tasks.txt" none none =
      Except.error (QMError.fileRepositoryRead "tasks.txt"
        "File path must end with .json format.")) ∧
    (fileLoadTasks "tasks.json" (some []) none = Except.ok []) :=
  ⟨(fileLoadTasks_char "tasks.txt" none none).1 (by decide),
   (fileLoadTasks_char "tasks.json" (some []) none).2.2 (by decide) [] rfl⟩

/-- C9 counterexample: task `a` (priority 1, created at t = 2·10⁶ ms) scores
1·10⁶ − 2·10⁶ = −10⁶, strictly below task `b` (priority 0, created at 0,
score 0): a higher priority does not give a higher Redis score once the
`createdAt` gap exceeds the 10⁶ multiplier, so descending score order does
not realise the required dequeue order. -/
theorem redis_score_priority_inversion :
    (mkTask 1 Status.pending 1 2000000 0 3 100 0).priority >
      (mkTask 2 Status.pending 0 0 0 3 100 0).priority ∧
    getScore (mkTask 1 Status.pending 1 2000000 0 3 100 0) <
      getScore (mkTask 2 Status.pending 0 0 0 3 100 0) := by
  decide

/-- C9 (amended): among equal-priority tasks the score orders strictly by
ascending `createdAt` (earlier ⇒ strictly higher score); across priorities a
higher priority yields a higher score only when the `createdAt` gap is smaller
than the priority gap times 10⁶ ms — in general higher priority does not imply
higher score. -/
theorem redis_score_order (a b : Task) :
    (a.priority = b.priority → a.createdAt < b.createdAt → getScore a > getScore b) ∧
    (b.priority < a.priority →
      a.createdAt - b.createdAt < (a.priority - b.priority) * 1000000 →
      getScore a > getScore b) := by
  unfold getScore
  constructor
  · intro h1 h2
    rw [h1]
    omega
  · intro h1 h2
    omega

/-- C9 amended-theorem witness: both orderings at concrete tasks. -/
theorem redis_score_order_witness :
    getScore (mkTask 1 Status.pending 5 100 0 3 100 0) >
      getScore (mkTask 2 Status.pending 5 200 0 3 100 0) ∧
    getScore (mkTask 3 Status.pending 1 500 0 3 100 0) >
      getScore (mkTask 4 Status.pending 0 0 0 3 100 0) :=
  ⟨(redis_score_order (mkTask 1 Status.pending 5 100 0 3 100 0)
      (mkTask 2 Status.pending 5 200 0 3 100 0)).1 (by decide) (by decide),
   (redis_score_order (mkTask 3 Status.pending 1 500 0 3 100 0)
      (mkTask 4 Status.pending 0 0 0 3 100 0)).2 (by decide) (by decide)⟩

/-- C10: when the dequeued task's handler has no registry entry and
`crashOnWorkerError` is false, the worker body records the task as `failed`
with log `Handler not found` (stamping `updatedAt`), emits `taskStarted` then
`taskFailed` with that error, and leaves the loop active — it continues
polling. -/
theorem worker_missing_handler_continues (now : Int) (t : Task) (tasks : List Task)
    (hmem : t ∈ tasks) :
    (workerProcess none false now t tasks).2.2 = true ∧
    (workerProcess none false now t tasks).2.1 =
      [Event.taskStarted t, Event.taskFailed t "Handler not found"] ∧
    ∃ u ∈ (workerProcess none false now t tasks).1,
      u.id = t.id ∧ u.status = Status.failed ∧ u.log = "Handler not found" ∧
      u.updatedAt = now := by
  refine ⟨rfl, rfl, ?_⟩
  have hex : ∃ u0, tasks.find? (fun x => x.id == t.id) = some u0 := by
    have : (tasks.find? (fun x => x.id == t.id)).isSome := by
      rw [List.find?_isSome]
      exact ⟨t, hmem, by simp⟩
    exact Option.isSome_iff_exists.mp this
  rcases hex with ⟨u0, hf⟩
  have hid0 : u0.id = t.id := by simpa using List.find?_some hf
  rcases updateFirst_decomp
    (f := statusUpdateFn now Status.failed (some "Handler not found")) hf
    with ⟨l₁, l₂, hsplit, hupd, _, _⟩
  refine ⟨statusUpdateFn now Status.failed (some "Handler not found") u0, ?_, ?_, rfl, ?_, rfl⟩
  · show _ ∈ (updateTaskStatus now t.id Status.failed (some "Handler not found") tasks).2
    unfold updateTaskStatus
    rw [hf]
    show _ ∈ updateFirst t.id (statusUpdateFn now Status.failed (some "Handler not found")) tasks
    rw [hupd]
    exact List.mem_append.mpr (Or.inr (List.mem_cons_self _ _))
  · exact hid0
  · show (if "Handler not found" = "" then u0.log else "Handler not found") = "Handler not found"
    rw [if_neg (by decide)]

/-- C10 witness: a concrete one-task queue whose handler is unregistered. -/
theorem worker_missing_handler_continues_witness :
    (workerProcess none false 7 (mkTask 1 Status.processing 0 0 0 3 100 0)
      [mkTask 1 Status.processing 0 0 0 3 100 0]).2.2 = true ∧
    (workerProcess none false 7 (mkTask 1 Status.processing 0 0 0 3 100 0)
      [mkTask 1 Status.processing 0 0 0 3 100 0]).2.1 =
      [Event.taskStarted (mkTask 1 Status.processing 0 0 0 3 100 0),
       Event.taskFailed (mkTask 1 Status.processing 0 0 0 3 100 0) "Handler not found"] ∧
    ∃ u ∈ (workerProcess none false 7 (mkTask 1 Status.processing 0 0 0 3 100 0)
      [mkTask 1 Status.processing 0 0 0 3 100 0]).1,
      u.id = (mkTask 1 Status.processing 0 0 0 3 100 0).id ∧
      u.status = Status.failed ∧ u.log = "Handler not found" ∧ u.updatedAt = 7 :=
  worker_missing_handler_continues 7 (mkTask 1 Status.processing 0 0 0 3 100 0)
    [mkTask 1 Status.processing 0 0 0 3 100 0] (by decide)

end QM
